import Mathlib

/-!
Verification of the aggregation and pipeline logic of the ARCHVTEL
NFL-fantasy-trends dashboard.

The development shallowly embeds the three read endpoints:

* the player-list endpoint (`src/src/app/api/nfl-players/route.ts`, first
  handler): dedup-by-player keeping the row with maximal
  `percent_started_change`, sort descending, paginate with JavaScript
  `Array.slice` semantics;
* the player-detail endpoint (same file, second handler): 400/404/500
  branches and the per-player summary statistics;
* the stats endpoint (the unnamed leaderboard route): sum-by-string-key
  leaderboards, extremum-by-player leaderboards and whole-table totals.

Modelling conventions: JavaScript numbers are modelled as exact rationals
(integers for the `adds`/`drops` counters); IEEE rounding is not modelled.
Nullable columns are `Option` fields, and the JavaScript `x || 0` idiom on
nullable numbers is `Option.getD 0`.  A JavaScript `Map` is an insertion
ordered association list: `set` on a present key updates in place, on an
absent key appends; `values()`/`entries()` iterate in that order.
`Array.prototype.sort` is stable, hence modelled by `List.insertionSort`
(also stable).  Store-side `.order(...)` clauses are modelled as a stable
sort of the fetched rows; a store fetch is an `Except`, `.error` standing
for a failed request.  Timestamps are modelled as integers (the stored ISO
strings order lexicographically, i.e. chronologically).
-/

/-- One row of the `nfl_fantasy_trends` table, per the columns the three
endpoints select.  Ingestion metadata (`id`, `scraped_at`, `created_at`)
is never read by the handlers and is omitted. -/
structure Row where
  player_name : String
  player_id : Option String
  position : Option String
  team : Option String
  opponent : Option String
  percent_rostered : Option ℚ
  percent_rostered_change : Option ℚ
  percent_started : Option ℚ
  percent_started_change : Option ℚ
  adds : Option ℤ
  drops : Option ℤ
  semana : ℤ
  timestamp : ℤ
deriving DecidableEq

/-- `record.percent_started_change || 0`. -/
def psc0 (r : Row) : ℚ := (r.percent_started_change).getD 0

/-- `record.percent_rostered_change || 0`. -/
def prc0 (r : Row) : ℚ := (r.percent_rostered_change).getD 0

/-- `record.percent_rostered || 0`. -/
def pr0 (r : Row) : ℚ := (r.percent_rostered).getD 0

/-- `record.percent_started || 0`. -/
def pst0 (r : Row) : ℚ := (r.percent_started).getD 0

/-- `record.adds || 0`. -/
def adds0 (r : Row) : ℤ := (r.adds).getD 0

/-- `record.drops || 0`. -/
def drops0 (r : Row) : ℤ := (r.drops).getD 0

/-! ### JavaScript `Map` as an insertion-ordered association list -/

/-- `Map.prototype.get`: value of the first (unique) entry with the key. -/
def mapGet {β : Type} (m : List (String × β)) (k : String) : Option β :=
  match m with
  | [] => none
  | (k', v) :: rest => if k' = k then some v else mapGet rest k

/-- `Map.prototype.set`: update in place if the key is present, else
append a new entry at the end (JavaScript `Map` iteration order). -/
def mapSet {β : Type} (m : List (String × β)) (k : String) (v : β) :
    List (String × β) :=
  match m with
  | [] => [(k, v)]
  | (k', v') :: rest =>
    if k' = k then (k, v) :: rest else (k', v') :: mapSet rest k v

theorem mapGet_mapSet_self {β : Type} (m : List (String × β)) (k : String)
    (v : β) : mapGet (mapSet m k v) k = some v := by
  induction m with
  | nil => simp [mapGet, mapSet]
  | cons p rest ih =>
    obtain ⟨k', v'⟩ := p
    by_cases h : k' = k
    · simp [mapGet, mapSet, h]
    · simp [mapGet, mapSet, h, ih]

theorem mapGet_mapSet_ne {β : Type} (m : List (String × β)) (k k' : String)
    (v : β) (h : k ≠ k') : mapGet (mapSet m k v) k' = mapGet m k' := by
  induction m with
  | nil => simp [mapGet, mapSet, h]
  | cons p rest ih =>
    obtain ⟨k0, v0⟩ := p
    by_cases hk : k0 = k
    · subst hk
      simp [mapGet, mapSet, h]
    · simp [mapGet, mapSet, hk, ih]

theorem keys_mapSet_of_mem {β : Type} (m : List (String × β)) (k : String)
    (v : β) (h : mapGet m k ≠ none) :
    (mapSet m k v).map Prod.fst = m.map Prod.fst := by
  induction m with
  | nil => simp [mapGet] at h
  | cons p rest ih =>
    obtain ⟨k0, v0⟩ := p
    by_cases hk : k0 = k
    · subst hk
      simp [mapSet]
    · simp [mapGet, hk] at h
      simp [mapSet, hk, ih h]

theorem keys_mapSet_of_not_mem {β : Type} (m : List (String × β))
    (k : String) (v : β) (h : mapGet m k = none) :
    (mapSet m k v).map Prod.fst = m.map Prod.fst ++ [k] := by
  induction m with
  | nil => simp [mapSet]
  | cons p rest ih =>
    obtain ⟨k0, v0⟩ := p
    by_cases hk : k0 = k
    · subst hk
      simp [mapGet] at h
    · simp [mapGet, hk] at h
      simp [mapSet, hk, ih h]

theorem mapGet_eq_none_iff {β : Type} (m : List (String × β)) (k : String) :
    mapGet m k = none ↔ k ∉ m.map Prod.fst := by
  induction m with
  | nil => simp [mapGet]
  | cons p rest ih =>
    obtain ⟨k0, v0⟩ := p
    by_cases hk : k0 = k
    · subst hk
      simp [mapGet]
    · simp [mapGet, hk, ih, Ne.symm hk]

theorem mapGet_ne_none_iff {β : Type} (m : List (String × β)) (k : String) :
    mapGet m k ≠ none ↔ k ∈ m.map Prod.fst := by
  rw [Ne, mapGet_eq_none_iff]
  exact not_not

theorem nodup_keys_mapSet {β : Type} (m : List (String × β)) (k : String)
    (v : β) (h : (m.map Prod.fst).Nodup) :
    ((mapSet m k v).map Prod.fst).Nodup := by
  rcases hg : mapGet m k with _ | w
  · rw [keys_mapSet_of_not_mem m k v hg]
    refine List.Nodup.append h (List.nodup_singleton k) ?_
    intro a ha hb
    simp at hb
    subst hb
    exact (mapGet_eq_none_iff m a).mp hg ha
  · rw [keys_mapSet_of_mem m k v (by simp [hg])]
    exact h

theorem mapGet_of_mem {β : Type} (m : List (String × β)) (k : String)
    (v : β) (hmem : (k, v) ∈ m) (hnd : (m.map Prod.fst).Nodup) :
    mapGet m k = some v := by
  induction m with
  | nil => simp at hmem
  | cons p rest ih =>
    obtain ⟨k0, v0⟩ := p
    rw [List.map_cons, List.nodup_cons] at hnd
    rcases List.mem_cons.mp hmem with hx | hmem
    · rw [Prod.mk.injEq] at hx
      simp [mapGet, hx.1.symm, hx.2.symm]
    · have hkmem : k ∈ rest.map Prod.fst := List.mem_map.mpr ⟨(k, v), hmem, rfl⟩
      have hk0 : k0 ≠ k := fun hkk => hnd.1 (hkk ▸ hkmem)
      simp only [mapGet]
      rw [if_neg hk0]
      exact ih hmem hnd.2

/-! ### Dedup-by-player keeping the strictly larger value of a field

Models the `playerMap` loop of the player-list endpoint (keyed on
`record.player_name`, replacing the stored record when
`(record.f || 0) > (existing.f || 0)`) and the identically shaped
`topRosteredMap` / `topPositiveChangesMap` loops of the stats endpoint. -/

/-- One iteration of the dedup loop: look the player up, store the new
record when the key is absent or the new value is strictly larger. -/
def dedupStep (f : Row → ℚ) (m : List (String × Row)) (r : Row) :
    List (String × Row) :=
  match mapGet m r.player_name with
  | none => mapSet m r.player_name r
  | some existing =>
    if f existing < f r then mapSet m r.player_name r else m

/-- The whole dedup loop (`rows.forEach(... playerMap.set ...)`). -/
def buildDedup (f : Row → ℚ) (rows : List Row) : List (String × Row) :=
  rows.foldl (dedupStep f) []

/-- `Array.from(map.values())` of the dedup map. -/
def dedupValues (f : Row → ℚ) (rows : List Row) : List Row :=
  (buildDedup f rows).map Prod.snd

/-- Invariant carried by the dedup fold: keys stay distinct and the
stored record for each key is exactly `List.argmax` (first row attaining
the maximum of `f`) of the rows with that name seen so far. -/
def DedupInv (f : Row → ℚ) (pre : List Row) (m : List (String × Row)) :
    Prop :=
  (m.map Prod.fst).Nodup ∧
    ∀ k, mapGet m k = (pre.filter (fun r => r.player_name == k)).argmax f

theorem dedupStep_of_none (f : Row → ℚ) (m : List (String × Row)) (r : Row)
    (h : mapGet m r.player_name = none) :
    dedupStep f m r = mapSet m r.player_name r := by
  unfold dedupStep
  rw [h]

theorem dedupStep_of_some (f : Row → ℚ) (m : List (String × Row)) (r e : Row)
    (h : mapGet m r.player_name = some e) :
    dedupStep f m r = if f e < f r then mapSet m r.player_name r else m := by
  unfold dedupStep
  rw [h]

theorem dedupStep_inv (f : Row → ℚ) (pre : List Row)
    (m : List (String × Row)) (r : Row) (h : DedupInv f pre m) :
    DedupInv f (pre ++ [r]) (dedupStep f m r) := by
  obtain ⟨hnd, hget⟩ := h
  have hfilter : ∀ k, (pre ++ [r]).filter (fun x => x.player_name == k)
      = pre.filter (fun x => x.player_name == k)
        ++ if r.player_name = k then [r] else [] := by
    intro k
    rw [List.filter_append]
    by_cases hk : r.player_name = k
    · simp [List.filter_cons, hk]
    · simp [List.filter_cons, hk]
  constructor
  · rcases hg : mapGet m r.player_name with _ | e
    · rw [dedupStep_of_none f m r hg]
      exact nodup_keys_mapSet m _ r hnd
    · rw [dedupStep_of_some f m r e hg]
      by_cases hlt : f e < f r
      · rw [if_pos hlt]
        exact nodup_keys_mapSet m _ r hnd
      · rw [if_neg hlt]
        exact hnd
  · intro k
    rw [hfilter k]
    by_cases hk : r.player_name = k
    · subst hk
      rw [if_pos rfl, List.argmax_concat]
      rcases hg : mapGet m r.player_name with _ | e
      · rw [dedupStep_of_none f m r hg, mapGet_mapSet_self]
        have he : (pre.filter
            (fun x => x.player_name == r.player_name)).argmax f = none := by
          rw [← hget r.player_name, hg]
        rw [he]
      · have he : (pre.filter
            (fun x => x.player_name == r.player_name)).argmax f = some e := by
          rw [← hget r.player_name, hg]
        rw [he, dedupStep_of_some f m r e hg]
        by_cases hlt : f e < f r
        · rw [if_pos hlt, mapGet_mapSet_self]
          simp [hlt]
        · rw [if_neg hlt, hget r.player_name, he]
          simp [hlt]
    · have hne : (if r.player_name = k then [r] else []) = ([] : List Row) :=
        if_neg hk
      rw [hne, List.append_nil]
      rcases hg : mapGet m r.player_name with _ | e
      · rw [dedupStep_of_none f m r hg, mapGet_mapSet_ne m _ k r hk, hget]
      · rw [dedupStep_of_some f m r e hg]
        by_cases hlt : f e < f r
        · rw [if_pos hlt, mapGet_mapSet_ne m _ k r hk, hget]
        · rw [if_neg hlt, hget]

theorem buildDedup_inv_aux (f : Row → ℚ) (rows : List Row) :
    ∀ (pre : List Row) (m : List (String × Row)), DedupInv f pre m →
      DedupInv f (pre ++ rows) (rows.foldl (dedupStep f) m) := by
  induction rows with
  | nil => intro pre m h; simpa using h
  | cons r rest ih =>
    intro pre m h
    have h1 := dedupStep_inv f pre m r h
    have h2 := ih (pre ++ [r]) (dedupStep f m r) h1
    simpa using h2

theorem buildDedup_inv (f : Row → ℚ) (rows : List Row) :
    DedupInv f rows (buildDedup f rows) := by
  have h0 : DedupInv f [] [] := by
    constructor
    · simp
    · intro k
      simp [mapGet]
  simpa using buildDedup_inv_aux f rows [] [] h0

theorem buildDedup_lookup (f : Row → ℚ) (rows : List Row) (k : String) :
    mapGet (buildDedup f rows) k
      = (rows.filter (fun r => r.player_name == k)).argmax f :=
  (buildDedup_inv f rows).2 k

theorem buildDedup_entry_name (f : Row → ℚ) (rows : List Row) (k : String)
    (v : Row) (hmem : (k, v) ∈ buildDedup f rows) : v.player_name = k := by
  have hget := mapGet_of_mem _ k v hmem (buildDedup_inv f rows).1
  rw [buildDedup_lookup] at hget
  have hv := List.argmax_mem hget
  rw [List.mem_filter] at hv
  exact beq_iff_eq.mp hv.2

/-- Every value of the dedup map is the first maximum (per `List.argmax`)
of the input rows bearing its player name. -/
theorem dedupValues_argmax (f : Row → ℚ) (rows : List Row) (v : Row)
    (hv : v ∈ dedupValues f rows) :
    (rows.filter (fun r => r.player_name == v.player_name)).argmax f
      = some v := by
  obtain ⟨p, hmem, hsnd⟩ := List.mem_map.mp hv
  obtain ⟨k, v'⟩ := p
  have hv' : v' = v := hsnd
  subst hv'
  rw [buildDedup_entry_name f rows k v' hmem]
  have hget := mapGet_of_mem _ k v' hmem (buildDedup_inv f rows).1
  rw [buildDedup_lookup] at hget
  exact hget

theorem dedupValues_names_eq_keys (f : Row → ℚ) (rows : List Row) :
    (dedupValues f rows).map Row.player_name
      = (buildDedup f rows).map Prod.fst := by
  unfold dedupValues
  rw [List.map_map]
  refine List.map_congr_left ?_
  intro p hp
  obtain ⟨k, v⟩ := p
  exact buildDedup_entry_name f rows k v hp

theorem dedupValues_names_nodup (f : Row → ℚ) (rows : List Row) :
    ((dedupValues f rows).map Row.player_name).Nodup := by
  rw [dedupValues_names_eq_keys]
  exact (buildDedup_inv f rows).1

theorem dedupValues_names_mem_iff (f : Row → ℚ) (rows : List Row)
    (k : String) :
    k ∈ (dedupValues f rows).map Row.player_name
      ↔ k ∈ rows.map Row.player_name := by
  rw [dedupValues_names_eq_keys, ← mapGet_ne_none_iff, buildDedup_lookup]
  rw [Ne, List.argmax_eq_none]
  constructor
  · intro h
    rcases hf : rows.filter (fun r => r.player_name == k) with _ | ⟨r, rest⟩
    · exact absurd hf h
    · have hr : r ∈ rows.filter (fun r => r.player_name == k) := by
        rw [hf]; exact List.mem_cons_self r rest
      rw [List.mem_filter] at hr
      exact List.mem_map.mpr ⟨r, hr.1, beq_iff_eq.mp hr.2⟩
  · intro h hnil
    obtain ⟨r, hr, hname⟩ := List.mem_map.mp h
    have : r ∈ rows.filter (fun x => x.player_name == k) :=
      List.mem_filter.mpr ⟨hr, beq_iff_eq.mpr hname⟩
    rw [hnil] at this
    simp at this

/-! ### JavaScript array slicing and the sorting relations -/

/-- ECMAScript `Array.prototype.slice(start, stop)` for integer
arguments: negative indices count from the end of the array, indices are
clamped to `[0, length]`, and the result is the (possibly empty) run of
elements between the two resolved positions. -/
def jsSlice {α : Type} (l : List α) (start stop : ℤ) : List α :=
  let len : ℤ := l.length
  let s := if start < 0 then max (len + start) 0 else min start len
  let e := if stop < 0 then max (len + stop) 0 else min stop len
  (l.drop s.toNat).take (e - s).toNat

theorem jsSlice_nonneg {α : Type} (l : List α) (start d : ℤ)
    (hs : 0 ≤ start) (hd : 0 ≤ d) :
    jsSlice l start (start + d) = (l.drop start.toNat).take d.toNat := by
  simp only [jsSlice]
  rw [if_neg (show ¬start < 0 by omega), if_neg (show ¬start + d < 0 by omega)]
  rcases le_or_lt start (l.length : ℤ) with hle | hgt
  · rw [min_eq_left hle]
    rcases le_or_lt (start + d) (l.length : ℤ) with hle2 | hgt2
    · rw [min_eq_left hle2]
      congr 1
      omega
    · rw [min_eq_right (le_of_lt hgt2)]
      have hlen : (l.drop start.toNat).length = l.length - start.toNat :=
        List.length_drop _ _
      rw [List.take_eq_take]
      omega
  · rw [min_eq_right (le_of_lt hgt), min_eq_right (by omega)]
    have h1 : l.drop (l.length : ℤ).toNat = [] := by
      rw [List.drop_eq_nil_iff]
      omega
    have h2 : l.drop start.toNat = [] := by
      rw [List.drop_eq_nil_iff]
      omega
    rw [h1, h2]
    simp

theorem drop_take_infix {α : Type} (l : List α) (s e : ℕ) :
    ∃ a b, l = a ++ ((l.drop s).take e) ++ b := by
  refine ⟨l.take s, (l.drop s).drop e, ?_⟩
  rw [List.append_assoc, List.take_append_drop, List.take_append_drop]

/-- Any slice is a contiguous run of the input array. -/
theorem jsSlice_infix {α : Type} (l : List α) (start stop : ℤ) :
    ∃ a b, l = a ++ jsSlice l start stop ++ b :=
  drop_take_infix l
    (if start < 0 then max ((l.length : ℤ) + start) 0
      else min start (l.length : ℤ)).toNat
    ((if stop < 0 then max ((l.length : ℤ) + stop) 0
      else min stop (l.length : ℤ)) -
      (if start < 0 then max ((l.length : ℤ) + start) 0
        else min start (l.length : ℤ))).toNat

/-- Comparator of the distinct-player sort:
`(a, b) => (b.percent_started_change || 0) - (a.percent_started_change || 0)`,
i.e. descending by `percent_started_change` with null as 0. -/
def descStarted (a b : Row) : Prop := psc0 b ≤ psc0 a

instance : DecidableRel descStarted := fun a b =>
  inferInstanceAs (Decidable (psc0 b ≤ psc0 a))

instance : IsTotal Row descStarted :=
  ⟨fun a b => le_total (psc0 b) (psc0 a)⟩

instance : IsTrans Row descStarted :=
  ⟨fun _ _ _ h1 h2 => le_trans h2 h1⟩

/-- Comparator of the top-rostered sort:
`(a, b) => (b.percent_rostered || 0) - (a.percent_rostered || 0)`. -/
def descRostered (a b : Row) : Prop := pr0 b ≤ pr0 a

instance : DecidableRel descRostered := fun a b =>
  inferInstanceAs (Decidable (pr0 b ≤ pr0 a))

instance : IsTotal Row descRostered :=
  ⟨fun a b => le_total (pr0 b) (pr0 a)⟩

instance : IsTrans Row descRostered :=
  ⟨fun _ _ _ h1 h2 => le_trans h2 h1⟩

/-! ### The player-list endpoint (first handler of route.ts) -/

/-- The deduplicated, descending-sorted distinct-player list:
`Array.from(playerMap.values()).sort((a, b) => (b.percent_started_change || 0)
- (a.percent_started_change || 0))`.  The JavaScript sort is stable, so any
stable sorting algorithm (here insertion sort) produces the same array. -/
def distinctLatestByChange (rows : List Row) : List Row :=
  List.insertionSort descStarted (dedupValues psc0 rows)

/-- `Math.ceil(total / limit)` on exact rationals.  Faithful to the source
for every `limit ≠ 0`; JavaScript produces `Infinity`/`NaN` for
`limit = 0` (a case no theorem below relies on), while rational division
by zero makes this `0`. -/
def totalPagesJS (total : ℕ) (limit : ℤ) : ℤ :=
  Int.ceil ((total : ℚ) / (limit : ℚ))

structure Pagination where
  page : ℤ
  limit : ℤ
  total : ℕ
  totalPages : ℤ
deriving DecidableEq

structure ListBody where
  players : List Row
  pagination : Pagination
deriving DecidableEq

/-- Body of the 200 response of the player-list endpoint: the distinct
players are sliced at `offset = (page - 1) * limit`, `total` is the length
of the pre-pagination distinct list, `totalPages = Math.ceil(total/limit)`,
and `page`/`limit` are echoed as parsed. -/
def listBody (rows : List Row) (page limit : ℤ) : ListBody :=
  let offset := (page - 1) * limit
  let distinctPlayers := distinctLatestByChange rows
  { players := jsSlice distinctPlayers offset (offset + limit)
    pagination :=
      { page := page
        limit := limit
        total := distinctPlayers.length
        totalPages := totalPagesJS distinctPlayers.length limit } }

inductive ListResult where
  /-- The 500 `Failed to fetch NFL players from Supabase` response. -/
  | serverError : ListResult
  /-- The 200 response. -/
  | ok : ListBody → ListResult
deriving DecidableEq

/-- The player-list endpoint, from the point where the store query
resolves: a store error yields the 500 response, otherwise the rows are
deduplicated, sorted and paginated.  The page/limit validation the
contract asks for does not exist in the handler: every parsed integer
reaches `listBody` unchecked. -/
def listEndpoint (fetch : Except Unit (List Row)) (page limit : ℤ) :
    ListResult :=
  match fetch with
  | .error _ => .serverError
  | .ok rows => .ok (listBody rows page limit)

theorem distinct_perm (rows : List Row) :
    List.Perm (distinctLatestByChange rows) (dedupValues psc0 rows) :=
  List.perm_insertionSort descStarted (dedupValues psc0 rows)

theorem distinct_sorted (rows : List Row) :
    (distinctLatestByChange rows).Pairwise descStarted :=
  List.sorted_insertionSort descStarted (dedupValues psc0 rows)

theorem distinct_argmax (rows : List Row) (e : Row)
    (he : e ∈ distinctLatestByChange rows) :
    (rows.filter (fun r => r.player_name == e.player_name)).argmax psc0
      = some e :=
  dedupValues_argmax psc0 rows e ((distinct_perm rows).mem_iff.mp he)

theorem distinct_names_nodup (rows : List Row) :
    ((distinctLatestByChange rows).map Row.player_name).Nodup :=
  ((distinct_perm rows).map Row.player_name).nodup_iff.mpr
    (dedupValues_names_nodup psc0 rows)

theorem distinct_names_mem_iff (rows : List Row) (k : String) :
    k ∈ (distinctLatestByChange rows).map Row.player_name
      ↔ k ∈ rows.map Row.player_name := by
  rw [((distinct_perm rows).map Row.player_name).mem_iff]
  exact dedupValues_names_mem_iff psc0 rows k

/-- C1.  The distinct-player list of the player-list endpoint: exactly one
entry per distinct `player_name` of the input; each kept entry is the
input row with the maximum `percent_started_change` (null as 0) among the
rows of that name, ties resolved in favour of the row encountered first in
input order (which is exactly `List.argmax`); and the output is sorted
descending by `percent_started_change` with null as 0. -/
theorem playerList_dedup_spec (rows : List Row) :
    ((distinctLatestByChange rows).map Row.player_name).Nodup
    ∧ (∀ k, k ∈ (distinctLatestByChange rows).map Row.player_name
        ↔ k ∈ rows.map Row.player_name)
    ∧ (∀ e ∈ distinctLatestByChange rows,
        (rows.filter (fun r => r.player_name == e.player_name)).argmax psc0
          = some e
        ∧ e ∈ rows
        ∧ ∀ r ∈ rows, r.player_name = e.player_name → psc0 r ≤ psc0 e)
    ∧ (distinctLatestByChange rows).Pairwise
        (fun a b => psc0 b ≤ psc0 a) := by
  refine ⟨distinct_names_nodup rows, distinct_names_mem_iff rows, ?_,
    distinct_sorted rows⟩
  intro e he
  have hax := distinct_argmax rows e he
  have hmem := List.argmax_mem (Option.mem_def.mpr hax)
  rw [List.mem_filter] at hmem
  refine ⟨hax, hmem.1, ?_⟩
  intro r hr hname
  have hrmem : r ∈ rows.filter (fun x => x.player_name == e.player_name) :=
    List.mem_filter.mpr ⟨hr, beq_iff_eq.mpr hname⟩
  exact List.le_of_mem_argmax hrmem (Option.mem_def.mpr hax)

theorem distinct_length_eq_dedup_names (rows : List Row) :
    (distinctLatestByChange rows).length
      = ((rows.map Row.player_name).dedup).length := by
  have hperm : List.Perm ((distinctLatestByChange rows).map Row.player_name)
      ((rows.map Row.player_name).dedup) := by
    refine (List.perm_ext_iff_of_nodup (distinct_names_nodup rows)
      (List.nodup_dedup _)).mpr ?_
    intro k
    rw [distinct_names_mem_iff rows k, List.mem_dedup]
  have := hperm.length_eq
  rwa [List.length_map] at this

/-- C3.  Pagination of the player-list endpoint: the page is the
half-open slice `[(page-1)*limit, (page-1)*limit + limit)` of the
deduplicated sorted list, out-of-range pages give an empty slice, `total`
is the distinct-player count before pagination, `totalPages` is the
ceiling of `total / limit` (`0` when `total = 0`), and for `total = 47`,
`limit = 20` the third page has 7 entries while the fourth is empty. -/
theorem playerList_pagination_spec (rows : List Row) (page limit : ℤ)
    (hp : 1 ≤ page) (hl : 1 ≤ limit) :
    ((listBody rows page limit).players
        = ((distinctLatestByChange rows).drop ((page - 1) * limit).toNat).take
            limit.toNat)
    ∧ ((distinctLatestByChange rows).length ≤ (page - 1) * limit →
        (listBody rows page limit).players = [])
    ∧ ((listBody rows page limit).pagination.total
        = ((rows.map Row.player_name).dedup).length)
    ∧ (((listBody rows page limit).pagination.total : ℤ)
          ≤ (listBody rows page limit).pagination.totalPages * limit
        ∧ ((listBody rows page limit).pagination.totalPages - 1) * limit
          < (listBody rows page limit).pagination.total)
    ∧ ((listBody rows page limit).pagination.total = 0 →
        (listBody rows page limit).pagination.totalPages = 0)
    ∧ ((distinctLatestByChange rows).length = 47 →
        totalPagesJS 47 20 = 3
        ∧ (listBody rows 3 20).players.length = 7
        ∧ (listBody rows 4 20).players = []) := by
  have hslice : ∀ pg lim : ℤ, 1 ≤ pg → 1 ≤ lim →
      (listBody rows pg lim).players
      = ((distinctLatestByChange rows).drop ((pg - 1) * lim).toNat).take
          lim.toNat := by
    intro pg lim hpg hlim
    show jsSlice (distinctLatestByChange rows) ((pg - 1) * lim)
        ((pg - 1) * lim + lim) = _
    exact jsSlice_nonneg _ _ _ (mul_nonneg (by omega) (by omega)) (by omega)
  have htotal : (listBody rows page limit).pagination.total
      = (distinctLatestByChange rows).length := rfl
  have hlq : (0 : ℚ) < (limit : ℚ) := by exact_mod_cast hl
  refine ⟨hslice page limit hp hl, ?_, ?_, ⟨?_, ?_⟩, ?_, ?_⟩
  · intro hout
    rw [hslice page limit hp hl, List.take_eq_nil_iff]
    right
    rw [List.drop_eq_nil_iff]
    omega
  · rw [htotal]
    exact distinct_length_eq_dedup_names rows
  · show ((distinctLatestByChange rows).length : ℤ)
      ≤ totalPagesJS (distinctLatestByChange rows).length limit * limit
    set t := (distinctLatestByChange rows).length
    unfold totalPagesJS
    have h1 : ((t : ℚ) / (limit : ℚ)) ≤ (Int.ceil ((t : ℚ) / (limit : ℚ)) : ℚ) :=
      Int.le_ceil _
    have h2 : (t : ℚ) ≤ (Int.ceil ((t : ℚ) / (limit : ℚ)) : ℚ) * (limit : ℚ) := by
      have h3 := mul_le_mul_of_nonneg_right h1 (le_of_lt hlq)
      rwa [div_mul_cancel₀ (t : ℚ) (ne_of_gt hlq)] at h3
    exact_mod_cast h2
  · show (totalPagesJS (distinctLatestByChange rows).length limit - 1) * limit
      < ((distinctLatestByChange rows).length : ℤ)
    set t := (distinctLatestByChange rows).length
    unfold totalPagesJS
    have h1 : ((Int.ceil ((t : ℚ) / (limit : ℚ)) : ℚ) - 1) < (t : ℚ) / (limit : ℚ) := by
      have := Int.ceil_lt_add_one ((t : ℚ) / (limit : ℚ))
      linarith
    have h2 : ((Int.ceil ((t : ℚ) / (limit : ℚ)) : ℚ) - 1) * (limit : ℚ) < (t : ℚ) := by
      have := mul_lt_mul_of_pos_right h1 hlq
      rwa [div_mul_cancel₀ (t : ℚ) (ne_of_gt hlq)] at this
    exact_mod_cast h2
  · intro h0
    rw [htotal] at h0
    show totalPagesJS (distinctLatestByChange rows).length limit = 0
    rw [h0]
    unfold totalPagesJS
    rw [Nat.cast_zero, zero_div, Int.ceil_zero]
  · intro h47
    refine ⟨?_, ?_, ?_⟩
    · show Int.ceil ((47 : ℚ) / (20 : ℚ)) = 3
      rw [Int.ceil_eq_iff]
      norm_num
    · rw [hslice 3 20 (by norm_num) (by norm_num)]
      rw [List.length_take, List.length_drop, h47]
      decide
    · rw [hslice 4 20 (by norm_num) (by norm_num), List.take_eq_nil_iff]
      right
      rw [List.drop_eq_nil_iff, h47]
      decide

/-- A row with the given name and `percent_started_change`, every other
nullable column null; used to instantiate the pagination theorem. -/
def mkRow (name : String) (v : ℚ) : Row :=
  { player_name := name, player_id := none, position := none, team := none
    opponent := none, percent_rostered := none
    percent_rostered_change := none, percent_started := some v
    percent_started_change := some v, adds := none, drops := none
    semana := 1, timestamp := 0 }

/-- 47 rows with 47 distinct player names. -/
def rows47 : List Row :=
  (List.range 47).map (fun i => mkRow ("p" ++ toString i) i)

theorem playerList_pagination_witness :
    (listBody rows47 3 20).players.length = 7
    ∧ (listBody rows47 4 20).players = [] := by
  have h := playerList_pagination_spec rows47 3 20 (by norm_num) (by norm_num)
  have h47 : (distinctLatestByChange rows47).length = 47 := by decide
  exact ⟨(h.2.2.2.2.2 h47).2.1, (h.2.2.2.2.2 h47).2.2⟩

/-- C10.  The player-list endpoint validates nothing: for every integer
`page` and `limit` (zero and negatives included) a successful store fetch
yields the 200 response, `page` and `limit` are echoed unchanged, the
players list is the `Array.slice` of the distinct list at the possibly
negative offset `(page - 1) * limit`, and in every case that list is a
contiguous run of the distinct list — the `page ≥ 1`, `limit ≥ 1`
contract is never enforced. -/
theorem playerList_no_validation (rows : List Row) (page limit : ℤ) :
    listEndpoint (Except.ok rows) page limit = .ok (listBody rows page limit)
    ∧ (listBody rows page limit).pagination.page = page
    ∧ (listBody rows page limit).pagination.limit = limit
    ∧ (listBody rows page limit).players
        = jsSlice (distinctLatestByChange rows) ((page - 1) * limit)
            ((page - 1) * limit + limit)
    ∧ ∃ a b, distinctLatestByChange rows
        = a ++ (listBody rows page limit).players ++ b := by
  refine ⟨rfl, rfl, rfl, rfl, ?_⟩
  exact jsSlice_infix (distinctLatestByChange rows) ((page - 1) * limit)
    ((page - 1) * limit + limit)

/-- C9.  The requested `sortBy`/`sortOrder` only change the order in which
the store hands rows to the dedup loop.  For any two fetch orders of the
same row multiset: the final list is always re-sorted descending by
`percent_started_change` (null as 0) — as is every page sliced from it —
the same set of player names survives deduplication, and each surviving
name carries the same `percent_started_change` value in both orders (only
which tying row wins can differ). -/
theorem playerList_resort_spec (rows1 rows2 : List Row)
    (hperm : List.Perm rows1 rows2) :
    (∀ page limit : ℤ,
        ((listBody rows1 page limit).players).Pairwise
          (fun a b => psc0 b ≤ psc0 a))
    ∧ (distinctLatestByChange rows1).Pairwise (fun a b => psc0 b ≤ psc0 a)
    ∧ (∀ k, k ∈ (distinctLatestByChange rows1).map Row.player_name
        ↔ k ∈ (distinctLatestByChange rows2).map Row.player_name)
    ∧ (∀ e1 ∈ distinctLatestByChange rows1,
        ∀ e2 ∈ distinctLatestByChange rows2,
          e1.player_name = e2.player_name → psc0 e1 = psc0 e2) := by
  refine ⟨?_, distinct_sorted rows1, ?_, ?_⟩
  · intro page limit
    obtain ⟨a, b, hab⟩ := jsSlice_infix (distinctLatestByChange rows1)
      ((page - 1) * limit) ((page - 1) * limit + limit)
    have hsub : List.Sublist (listBody rows1 page limit).players
        (distinctLatestByChange rows1) := by
      have h1 : List.Sublist (listBody rows1 page limit).players
          ((listBody rows1 page limit).players ++ b) :=
        List.sublist_append_left _ _
      have h2 : List.Sublist ((listBody rows1 page limit).players ++ b)
          (a ++ ((listBody rows1 page limit).players ++ b)) :=
        List.sublist_append_right _ _
      have heq : a ++ ((listBody rows1 page limit).players ++ b)
          = distinctLatestByChange rows1 := by
        rw [← List.append_assoc]
        exact hab.symm
      exact heq ▸ (h1.trans h2)
    exact (distinct_sorted rows1).sublist hsub
  · intro k
    rw [distinct_names_mem_iff rows1 k, distinct_names_mem_iff rows2 k]
    exact (hperm.map Row.player_name).mem_iff
  · intro e1 he1 e2 he2 hname
    have hax1 := distinct_argmax rows1 e1 he1
    have hax2 := distinct_argmax rows2 e2 he2
    rw [← hname] at hax2
    have hpf : List.Perm
        (rows1.filter (fun r => r.player_name == e1.player_name))
        (rows2.filter (fun r => r.player_name == e1.player_name)) :=
      hperm.filter _
    have hm1 : e1 ∈ rows2.filter (fun r => r.player_name == e1.player_name) :=
      hpf.mem_iff.mp (List.argmax_mem (Option.mem_def.mpr hax1))
    have hm2 : e2 ∈ rows1.filter (fun r => r.player_name == e1.player_name) :=
      hpf.mem_iff.mpr (List.argmax_mem (Option.mem_def.mpr hax2))
    exact le_antisymm
      (List.le_of_mem_argmax hm1 (Option.mem_def.mpr hax2))
      (List.le_of_mem_argmax hm2 (Option.mem_def.mpr hax1))

theorem playerList_resort_witness :
    (distinctLatestByChange [mkRow "a" 5, mkRow "b" 3]).Pairwise
      (fun a b => psc0 b ≤ psc0 a) :=
  (playerList_resort_spec [mkRow "a" 5, mkRow "b" 3]
    [mkRow "b" 3, mkRow "a" 5] (by decide)).2.1

/-! ### The stats endpoint (the unnamed leaderboard route) -/

theorem jsSlice_zero_take {α : Type} (l : List α) (n : ℤ) (hn : 0 ≤ n) :
    jsSlice l 0 n = l.take n.toNat := by
  have h := jsSlice_nonneg l 0 n le_rfl hn
  rw [zero_add] at h
  rw [h, Int.toNat_zero, List.drop_zero]

/-- The `topRostered` leaderboard: dedup by player name keeping the row
with the strictly larger `percent_rostered || 0`, sort descending by the
same field, `.slice(0, 5)`. -/
def topRostered (rows : List Row) : List Row :=
  jsSlice (List.insertionSort descRostered (dedupValues pr0 rows)) 0 5

/-- C5.  `topRostered`: at most five entries, sorted descending by
`percent_rostered` (null as 0), one entry per surviving player name, and
each entry is the first input row attaining the maximum
`percent_rostered` among the rows of its name (`List.argmax`). -/
theorem topRostered_spec (rows : List Row) :
    (topRostered rows).length ≤ 5
    ∧ (topRostered rows).Pairwise (fun a b => pr0 b ≤ pr0 a)
    ∧ ((topRostered rows).map Row.player_name).Nodup
    ∧ ∀ e ∈ topRostered rows,
        (rows.filter (fun r => r.player_name == e.player_name)).argmax pr0
          = some e
        ∧ e ∈ rows
        ∧ ∀ r ∈ rows, r.player_name = e.player_name → pr0 r ≤ pr0 e := by
  have hsorted : (List.insertionSort descRostered (dedupValues pr0 rows)).Pairwise
      descRostered :=
    List.sorted_insertionSort descRostered (dedupValues pr0 rows)
  have hperm : List.Perm (List.insertionSort descRostered (dedupValues pr0 rows))
      (dedupValues pr0 rows) :=
    List.perm_insertionSort descRostered (dedupValues pr0 rows)
  have htake : topRostered rows
      = (List.insertionSort descRostered (dedupValues pr0 rows)).take
          ((5 : ℤ).toNat) :=
    jsSlice_zero_take _ 5 (by norm_num)
  refine ⟨?_, ?_, ?_, ?_⟩
  · rw [htake]
    calc ((List.insertionSort descRostered (dedupValues pr0 rows)).take
        ((5 : ℤ).toNat)).length ≤ (5 : ℤ).toNat := List.length_take_le _ _
    _ ≤ 5 := by decide
  · rw [htake]
    exact hsorted.sublist (List.take_sublist _ _)
  · rw [htake]
    have hnodup : ((List.insertionSort descRostered
        (dedupValues pr0 rows)).map Row.player_name).Nodup :=
      (hperm.map Row.player_name).nodup_iff.mpr
        (dedupValues_names_nodup pr0 rows)
    exact hnodup.sublist ((List.take_sublist _ _).map Row.player_name)
  · intro e he
    rw [htake] at he
    have he2 : e ∈ dedupValues pr0 rows :=
      hperm.mem_iff.mp (List.mem_of_mem_take he)
    have hax := dedupValues_argmax pr0 rows e he2
    have hmem := List.argmax_mem (Option.mem_def.mpr hax)
    rw [List.mem_filter] at hmem
    refine ⟨hax, hmem.1, ?_⟩
    intro r hr hname
    have hrmem : r ∈ rows.filter (fun x => x.player_name == e.player_name) :=
      List.mem_filter.mpr ⟨hr, beq_iff_eq.mpr hname⟩
    exact List.le_of_mem_argmax hrmem (Option.mem_def.mpr hax)

structure TotalStats where
  totalAdds : ℤ
  totalDrops : ℤ
  avgRostered : ℚ
  avgStarted : ℚ
  totalRecords : ℕ
  uniquePlayers : ℕ
deriving DecidableEq

/-- The `totalStats` aggregate of the stats endpoint.  The denominator of
the averages is `totalStatsData?.length || 1`, i.e. `1` exactly when the
row list is empty; `uniquePlayers` is `new Set(names).size`.  The two
underlying full-table fetches (metric columns and names) both return the
whole table and are modelled by one snapshot of rows. -/
def totalStats (rows : List Row) : TotalStats :=
  { totalAdds := rows.foldl (fun s r => s + adds0 r) 0
    totalDrops := rows.foldl (fun s r => s + drops0 r) 0
    avgRostered := (rows.foldl (fun s r => s + pr0 r) 0)
      / (if rows.length = 0 then 1 else (rows.length : ℚ))
    avgStarted := (rows.foldl (fun s r => s + pst0 r) 0)
      / (if rows.length = 0 then 1 else (rows.length : ℚ))
    totalRecords := rows.length
    uniquePlayers := ((rows.map Row.player_name).dedup).length }

theorem foldl_add_map_sum {γ : Type} [AddCommMonoid γ] (g : Row → γ)
    (rows : List Row) :
    ∀ init : γ, rows.foldl (fun s r => s + g r) init = init + (rows.map g).sum := by
  induction rows with
  | nil => intro init; simp
  | cons r rest ih =>
    intro init
    rw [List.foldl_cons, ih (init + g r), List.map_cons, List.sum_cons]
    rw [add_assoc]

/-- C6.  `totalStats` on the empty table: zero records, zero unique
players, both averages 0, with no division by zero (the denominator is
`length || 1`); on a non-empty table the averages are the sums of the
null-as-0 metric divided by the row count. -/
theorem totalStats_spec (rows : List Row) :
    ((totalStats []).totalRecords = 0 ∧ (totalStats []).uniquePlayers = 0
      ∧ (totalStats []).avgRostered = 0 ∧ (totalStats []).avgStarted = 0
      ∧ (totalStats []).totalAdds = 0 ∧ (totalStats []).totalDrops = 0)
    ∧ (rows.length ≠ 0 →
        (totalStats rows).avgRostered = (rows.map pr0).sum / (rows.length : ℚ)
        ∧ (totalStats rows).avgStarted
          = (rows.map pst0).sum / (rows.length : ℚ))
    ∧ (rows.length = 0 →
        (totalStats rows).avgRostered = 0 ∧ (totalStats rows).avgStarted = 0)
    ∧ (totalStats rows).totalAdds = (rows.map adds0).sum
    ∧ (totalStats rows).totalRecords = rows.length := by
  refine ⟨⟨rfl, rfl, by norm_num [totalStats], by norm_num [totalStats]⟩, ?_, ?_, ?_, rfl⟩
  · intro hne
    constructor
    · show (rows.foldl (fun s r => s + pr0 r) 0)
        / (if rows.length = 0 then 1 else (rows.length : ℚ)) = _
      rw [if_neg hne, foldl_add_map_sum pr0 rows 0, zero_add]
    · show (rows.foldl (fun s r => s + pst0 r) 0)
        / (if rows.length = 0 then 1 else (rows.length : ℚ)) = _
      rw [if_neg hne, foldl_add_map_sum pst0 rows 0, zero_add]
  · intro h0
    rw [List.length_eq_zero] at h0
    subst h0
    constructor
    · norm_num [totalStats]
    · norm_num [totalStats]
  · show rows.foldl (fun s r => s + adds0 r) 0 = _
    rw [foldl_add_map_sum adds0 rows 0, zero_add]

theorem totalStats_witness :
    (totalStats [mkRow "a" 5]).avgStarted
      = ([mkRow "a" 5].map pst0).sum / (([mkRow "a" 5].length : ℕ) : ℚ) :=
  ((totalStats_spec [mkRow "a" 5]).2.1 (by decide)).2

/-- JavaScript template-literal interpolation of a nullable string:
null renders as the string `null`. -/
def optStr (o : Option String) : String := o.getD "null"

/-- The grouping key of the top-adds map:
the template literal `player_name-position-team`. -/
def addsKey (r : Row) : String :=
  r.player_name ++ "-" ++ optStr r.position ++ "-" ++ optStr r.team

/-- One iteration of the top-adds loop:
`map.set(key, (map.get(key) || 0) + (item.adds || 0))`. -/
def sumStep (m : List (String × ℤ)) (r : Row) : List (String × ℤ) :=
  mapSet m (addsKey r) ((mapGet m (addsKey r)).getD 0 + adds0 r)

/-- The whole top-adds accumulation loop. -/
def buildSums (rows : List Row) : List (String × ℤ) :=
  rows.foldl sumStep []

/-- `String.prototype.split("-")` on the character list of a string. -/
def splitOnDash : List Char → List (List Char)
  | [] => [[]]
  | c :: rest =>
    if c = '-' then [] :: splitOnDash rest
    else
      match splitOnDash rest with
      | [] => [[c]]
      | h :: t => (c :: h) :: t

/-- The destructuring `const [player_name, position, team] = key.split('-')`:
the first three fragments.  Every key produced by `addsKey` contains at
least two dashes, so the under-two-dashes fallback is unreachable. -/
def keyParts (k : String) : String × String × String :=
  match splitOnDash k.data with
  | a :: b :: c :: _ => (String.mk a, String.mk b, String.mk c)
  | _ => ("", "", "")

/-- One entry of the `topAdds` response array. -/
structure TopAddsEntry where
  player_name : String
  position : String
  team : String
  totalAdds : ℤ
deriving DecidableEq

/-- `([key, totalAdds]) => { const [player_name, position, team] =
key.split('-'); return { player_name, position, team, totalAdds }; }`. -/
def entryOf (p : String × ℤ) : TopAddsEntry :=
  { player_name := (keyParts p.1).1
    position := (keyParts p.1).2.1
    team := (keyParts p.1).2.2
    totalAdds := p.2 }

/-- Comparator `(a, b) => b.totalAdds - a.totalAdds`. -/
def descTotalAdds (a b : TopAddsEntry) : Prop := b.totalAdds ≤ a.totalAdds

instance : DecidableRel descTotalAdds := fun a b =>
  inferInstanceAs (Decidable (b.totalAdds ≤ a.totalAdds))

instance : IsTotal TopAddsEntry descTotalAdds :=
  ⟨fun a b => le_total b.totalAdds a.totalAdds⟩

instance : IsTrans TopAddsEntry descTotalAdds :=
  ⟨fun _ _ _ h1 h2 => le_trans h2 h1⟩

/-- The `topAdds` leaderboard: accumulate per string key, turn entries
into objects by splitting the key, sort descending by total, take 5. -/
def topAdds (rows : List Row) : List TopAddsEntry :=
  jsSlice (List.insertionSort descTotalAdds ((buildSums rows).map entryOf)) 0 5

theorem splitOnDash_no_dash (x : List Char) (hx : '-' ∉ x) :
    splitOnDash x = [x] := by
  induction x with
  | nil => rfl
  | cons c cx ih =>
    rw [List.mem_cons, not_or] at hx
    simp only [splitOnDash]
    rw [if_neg (fun hc => hx.1 hc.symm), ih hx.2]

theorem splitOnDash_append (x y : List Char) (hx : '-' ∉ x) :
    splitOnDash (x ++ '-' :: y) = x :: splitOnDash y := by
  induction x with
  | nil =>
    rw [List.nil_append]
    simp only [splitOnDash]
    simp
  | cons c cx ih =>
    rw [List.mem_cons, not_or] at hx
    rw [List.cons_append]
    simp only [splitOnDash]
    rw [if_neg (fun hc => hx.1 hc.symm), ih hx.2]

theorem addsKey_data (r : Row) :
    (addsKey r).data = r.player_name.data
      ++ '-' :: ((optStr r.position).data
      ++ '-' :: (optStr r.team).data) := by
  unfold addsKey
  rw [String.data_append, String.data_append, String.data_append,
    String.data_append]
  rw [List.append_assoc, List.append_assoc, List.append_assoc]
  rfl

theorem keyParts_addsKey (r : Row)
    (hn : '-' ∉ r.player_name.data)
    (hp : '-' ∉ (optStr r.position).data)
    (ht : '-' ∉ (optStr r.team).data) :
    keyParts (addsKey r)
      = (r.player_name, optStr r.position, optStr r.team) := by
  unfold keyParts
  rw [addsKey_data r, splitOnDash_append _ _ hn, splitOnDash_append _ _ hp,
    splitOnDash_no_dash _ ht]

theorem addsKey_eq_iff (r r' : Row)
    (hn : '-' ∉ r.player_name.data)
    (hp : '-' ∉ (optStr r.position).data)
    (ht : '-' ∉ (optStr r.team).data)
    (hn' : '-' ∉ r'.player_name.data)
    (hp' : '-' ∉ (optStr r'.position).data)
    (ht' : '-' ∉ (optStr r'.team).data) :
    addsKey r = addsKey r'
      ↔ (r.player_name = r'.player_name
          ∧ optStr r.position = optStr r'.position
          ∧ optStr r.team = optStr r'.team) := by
  constructor
  · intro h
    have h1 := keyParts_addsKey r hn hp ht
    have h2 := keyParts_addsKey r' hn' hp' ht'
    rw [h, h2, Prod.mk.injEq, Prod.mk.injEq] at h1
    exact ⟨h1.1.symm, h1.2.1.symm, h1.2.2.symm⟩
  · intro ⟨h1, h2, h3⟩
    unfold addsKey
    rw [h1, h2, h3]

/-- Invariant of the top-adds accumulation: keys distinct, and each key
maps to the running sum of `adds || 0` over the rows seen so far whose
`addsKey` equals that key (absent iff no such row yet). -/
def SumInv (pre : List Row) (m : List (String × ℤ)) : Prop :=
  (m.map Prod.fst).Nodup ∧
    ∀ k, mapGet m k
      = if pre.filter (fun r => addsKey r == k) = [] then none
        else some (((pre.filter (fun r => addsKey r == k)).map adds0).sum)

theorem sumStep_inv (pre : List Row) (m : List (String × ℤ)) (r : Row)
    (h : SumInv pre m) : SumInv (pre ++ [r]) (sumStep m r) := by
  obtain ⟨hnd, hget⟩ := h
  refine ⟨nodup_keys_mapSet m _ _ hnd, ?_⟩
  intro k
  have hfilter : (pre ++ [r]).filter (fun x => addsKey x == k)
      = pre.filter (fun x => addsKey x == k)
        ++ if addsKey r = k then [r] else [] := by
    rw [List.filter_append]
    by_cases hk : addsKey r = k
    · simp [List.filter_cons, hk]
    · simp [List.filter_cons, hk]
  rw [hfilter]
  by_cases hk : addsKey r = k
  · subst hk
    rw [if_pos rfl]
    unfold sumStep
    rw [mapGet_mapSet_self]
    rcases hf : pre.filter (fun x => addsKey x == addsKey r) with _ | ⟨a, rest⟩
    · have : mapGet m (addsKey r) = none := by
        rw [hget (addsKey r), if_pos hf]
      rw [this]
      simp
    · have : mapGet m (addsKey r)
          = some (((a :: rest).map adds0).sum) := by
        rw [hget (addsKey r), hf]
        simp
      rw [this]
      rw [if_neg (by simp)]
      simp [List.sum_append, add_assoc]
  · rw [if_neg hk, List.append_nil]
    unfold sumStep
    rw [mapGet_mapSet_ne m _ k _ hk, hget]

theorem buildSums_inv_aux (rows : List Row) :
    ∀ (pre : List Row) (m : List (String × ℤ)), SumInv pre m →
      SumInv (pre ++ rows) (rows.foldl sumStep m) := by
  induction rows with
  | nil => intro pre m h; simpa using h
  | cons r rest ih =>
    intro pre m h
    have h2 := ih (pre ++ [r]) (sumStep m r) (sumStep_inv pre m r h)
    simpa using h2

theorem buildSums_inv (rows : List Row) : SumInv rows (buildSums rows) := by
  have h0 : SumInv [] [] := by
    refine ⟨by simp, ?_⟩
    intro k
    simp [mapGet]
  simpa using buildSums_inv_aux rows [] [] h0

/-- A row whose player name contains a dash, as hyphenated player names
do; `adds = 3`. -/
def rowHyphen : Row :=
  { player_name := "x-y", player_id := none, position := some "QB"
    team := some "KC", opponent := none, percent_rostered := none
    percent_rostered_change := none, percent_started := none
    percent_started_change := none, adds := some 3, drops := none
    semana := 1, timestamp := 0 }

/-- The key of a dashed name splits at the wrong places: the single
group of `rowHyphen` is reported with `player_name = "x"` — a name no
input row has — and `team = "QB"` (the recorded position). -/
theorem topAdds_counterexample :
    (topAdds [rowHyphen]).map TopAddsEntry.player_name = ["x"]
    ∧ "x" ∉ ([rowHyphen].map Row.player_name)
    ∧ (topAdds [rowHyphen]).map TopAddsEntry.team = ["QB"] := by
  decide

/-- Hygiene condition under which the string key faithfully encodes the
(player_name, position, team) triple: position and team are non-null and
none of the three strings contains a dash. -/
def CleanRow (r : Row) : Prop :=
  '-' ∉ r.player_name.data
  ∧ r.position ≠ none ∧ '-' ∉ (optStr r.position).data
  ∧ r.team ≠ none ∧ '-' ∉ (optStr r.team).data

instance : DecidablePred CleanRow := fun r => by
  unfold CleanRow
  infer_instance

theorem optStr_of_ne_none (o : Option String) (h : o ≠ none) :
    o = some (optStr o) := by
  cases o with
  | none => exact absurd rfl h
  | some s => rfl

/-- C2 (amended).  When every row has a non-null position and team and no
dash occurs in name, position or team, `topAdds` groups by the
(player_name, position, team) triple: each of the at most five entries,
sorted descending by `totalAdds`, carries the triple of an input row, and
its total is the sum of `adds || 0` over exactly the input rows with that
triple.  (Without the hygiene condition the string key conflates and
mis-splits triples — see the counterexample.) -/
theorem topAdds_spec (rows : List Row) (hclean : ∀ r ∈ rows, CleanRow r) :
    (topAdds rows).length ≤ 5
    ∧ (topAdds rows).Pairwise (fun a b => b.totalAdds ≤ a.totalAdds)
    ∧ ∀ e ∈ topAdds rows,
        (∃ r ∈ rows, r.player_name = e.player_name
          ∧ r.position = some e.position ∧ r.team = some e.team)
        ∧ e.totalAdds
          = ((rows.filter (fun r => r.player_name == e.player_name
              && r.position == some e.position
              && r.team == some e.team)).map adds0).sum := by
  have htake : topAdds rows
      = (List.insertionSort descTotalAdds
          ((buildSums rows).map entryOf)).take ((5 : ℤ).toNat) :=
    jsSlice_zero_take _ 5 (by norm_num)
  have hperm : List.Perm
      (List.insertionSort descTotalAdds ((buildSums rows).map entryOf))
      ((buildSums rows).map entryOf) :=
    List.perm_insertionSort _ _
  refine ⟨?_, ?_, ?_⟩
  · rw [htake]
    calc ((List.insertionSort descTotalAdds
        ((buildSums rows).map entryOf)).take ((5 : ℤ).toNat)).length
        ≤ (5 : ℤ).toNat := List.length_take_le _ _
    _ ≤ 5 := by decide
  · rw [htake]
    exact (List.sorted_insertionSort descTotalAdds _).sublist
      (List.take_sublist _ _)
  · intro e he
    rw [htake] at he
    have he2 : e ∈ (buildSums rows).map entryOf :=
      hperm.mem_iff.mp (List.mem_of_mem_take he)
    obtain ⟨p, hpmem, hpe⟩ := List.mem_map.mp he2
    obtain ⟨k, v⟩ := p
    obtain ⟨hnd, hget⟩ := buildSums_inv rows
    have hkv : mapGet (buildSums rows) k = some v :=
      mapGet_of_mem _ k v hpmem hnd
    rw [hget k] at hkv
    by_cases hnil : rows.filter (fun r => addsKey r == k) = []
    · rw [if_pos hnil] at hkv
      exact absurd hkv (by simp)
    rw [if_neg hnil] at hkv
    have hv : v = ((rows.filter (fun r => addsKey r == k)).map adds0).sum :=
      (Option.some.injEq _ _ ▸ hkv).symm
    obtain ⟨r0, hr0mem⟩ := List.exists_mem_of_ne_nil _ hnil
    rw [List.mem_filter] at hr0mem
    have hr0k : addsKey r0 = k := beq_iff_eq.mp hr0mem.2
    obtain ⟨hn0, hpne0, hp0, htne0, ht0⟩ := hclean r0 hr0mem.1
    have hparts : keyParts k
        = (r0.player_name, optStr r0.position, optStr r0.team) := by
      rw [← hr0k]
      exact keyParts_addsKey r0 hn0 hp0 ht0
    have hename : e.player_name = r0.player_name := by
      rw [← hpe]
      show (keyParts k).1 = _
      rw [hparts]
    have hepos : e.position = optStr r0.position := by
      rw [← hpe]
      show (keyParts k).2.1 = _
      rw [hparts]
    have heteam : e.team = optStr r0.team := by
      rw [← hpe]
      show (keyParts k).2.2 = _
      rw [hparts]
    have hetotal : e.totalAdds = v := by rw [← hpe]; rfl
    have hfiltereq : rows.filter (fun r => addsKey r == k)
        = rows.filter (fun r => r.player_name == e.player_name
            && r.position == some e.position && r.team == some e.team) := by
      refine List.filter_congr ?_
      intro r hr
      obtain ⟨hn, hpne, hp, htne, ht⟩ := hclean r hr
      rw [Bool.eq_iff_iff]
      rw [Bool.and_eq_true, Bool.and_eq_true]
      rw [beq_iff_eq, beq_iff_eq, beq_iff_eq, beq_iff_eq]
      rw [← hr0k]
      rw [addsKey_eq_iff r r0 hn hp ht hn0 hp0 ht0]
      rw [hename, hepos, heteam]
      constructor
      · intro ⟨h1, h2, h3⟩
        refine ⟨⟨h1, ?_⟩, ?_⟩
        · rw [optStr_of_ne_none r.position hpne, h2]
        · rw [optStr_of_ne_none r.team htne, h3]
      · intro ⟨⟨h1, h2⟩, h3⟩
        refine ⟨h1, ?_, ?_⟩
        · rw [optStr_of_ne_none r.position hpne] at h2
          exact Option.some.injEq _ _ ▸ h2
        · rw [optStr_of_ne_none r.team htne] at h3
          exact Option.some.injEq _ _ ▸ h3
    refine ⟨⟨r0, hr0mem.1, hename.symm, ?_, ?_⟩, ?_⟩
    · rw [hepos]
      exact optStr_of_ne_none r0.position hpne0
    · rw [heteam]
      exact optStr_of_ne_none r0.team htne0
    · rw [hetotal, hv, hfiltereq]

/-- Dash-free rows with non-null position and team. -/
def cleanRowsC2 : List Row :=
  [{ player_name := "a", player_id := none, position := some "QB"
     team := some "KC", opponent := none, percent_rostered := none
     percent_rostered_change := none, percent_started := none
     percent_started_change := none, adds := some 2, drops := none
     semana := 1, timestamp := 0 },
   { player_name := "a", player_id := none, position := some "QB"
     team := some "KC", opponent := none, percent_rostered := none
     percent_rostered_change := none, percent_started := none
     percent_started_change := none, adds := some 3, drops := none
     semana := 2, timestamp := 1 }]

theorem topAdds_witness :
    (∀ r ∈ cleanRowsC2, CleanRow r) ∧ (topAdds cleanRowsC2).length ≤ 5 :=
  ⟨by decide, (topAdds_spec cleanRowsC2 (by decide)).1⟩

/-! ### The player-detail endpoint (second handler of route.ts) -/

structure PlayerSummary where
  totalAdds : ℤ
  totalDrops : ℤ
  avgRosteredChange : ℚ
  avgStartedChange : ℚ
  maxRostered : ℚ
  maxStarted : ℚ
  currentRostered : ℚ
  currentStarted : ℚ
deriving DecidableEq

/-- `Math.max(...xs)` over a spread list.  The handler only evaluates it
on non-empty lists (the 404 branch has already fired); the JavaScript
value of the unreachable empty case is `-Infinity`, rendered here as 0. -/
def jsMaxList (xs : List ℚ) : ℚ :=
  match xs with
  | [] => 0
  | x :: rest => rest.foldl max x

/-- `playerDetails[playerDetails.length - 1]?.field || 0`. -/
def lastValue (f : Row → Option ℚ) (l : List Row) : ℚ :=
  match l.getLast? with
  | none => 0
  | some r => (f r).getD 0

/-- The summary block computed from the sorted per-player series. -/
def summarizePlayer (l : List Row) : PlayerSummary :=
  { totalAdds := l.foldl (fun s r => s + adds0 r) 0
    totalDrops := l.foldl (fun s r => s + drops0 r) 0
    avgRosteredChange := (l.foldl (fun s r => s + prc0 r) 0) / (l.length : ℚ)
    avgStartedChange := (l.foldl (fun s r => s + psc0 r) 0) / (l.length : ℚ)
    maxRostered := jsMaxList (l.map pr0)
    maxStarted := jsMaxList (l.map pst0)
    currentRostered := lastValue Row.percent_rostered l
    currentStarted := lastValue Row.percent_started l }

structure DetailBody where
  playerDetails : List Row
  summary : PlayerSummary
  playerName : String
  position : Option String
  team : Option String
deriving DecidableEq

inductive DetailResult where
  /-- The 400 `Player name is required` response. -/
  | validationError : DetailResult
  /-- The 500 `Failed to fetch NFL player details from Supabase` response. -/
  | serverError : DetailResult
  /-- The 404 `Player not found` response. -/
  | notFound : DetailResult
  /-- The 200 response. -/
  | ok : DetailBody → DetailResult
deriving DecidableEq

/-- Ascending (semana, timestamp) ordering of the store query
`.order('semana').order('timestamp')`. -/
def detailLe (a b : Row) : Prop :=
  a.semana < b.semana ∨ (a.semana = b.semana ∧ a.timestamp ≤ b.timestamp)

instance : DecidableRel detailLe := fun a b =>
  inferInstanceAs (Decidable (a.semana < b.semana
    ∨ (a.semana = b.semana ∧ a.timestamp ≤ b.timestamp)))

instance : IsTotal Row detailLe := by
  refine ⟨fun a b => ?_⟩
  unfold detailLe
  rcases lt_trichotomy a.semana b.semana with h | h | h
  · exact Or.inl (Or.inl h)
  · rcases le_total a.timestamp b.timestamp with ht | ht
    · exact Or.inl (Or.inr ⟨h, ht⟩)
    · exact Or.inr (Or.inr ⟨h.symm, ht⟩)
  · exact Or.inr (Or.inl h)

instance : IsTrans Row detailLe := by
  refine ⟨fun a b c hab hbc => ?_⟩
  unfold detailLe at hab hbc ⊢
  rcases hab with hab | ⟨hab1, hab2⟩
  · rcases hbc with hbc | ⟨hbc1, hbc2⟩
    · exact Or.inl (lt_trans hab hbc)
    · exact Or.inl (hbc1 ▸ hab)
  · rcases hbc with hbc | ⟨hbc1, hbc2⟩
    · exact Or.inl (hab1 ▸ hbc)
    · exact Or.inr ⟨hab1.trans hbc1, le_trans hab2 hbc2⟩

/-- The store-side ascending (semana, timestamp) sort; stable, like the
store ordering over the fetched rows. -/
def detailSort (rows : List Row) : List Row :=
  List.insertionSort detailLe rows

/-- The player-detail endpoint.  `searchParams.get('playerName')` is
`none` when absent; `if (!playerName)` catches both the absent (`null`)
and the present-but-empty (`""`) parameter.  A store error yields 500; an
empty result set yields 404; otherwise the sorted series, the summary and
the FIRST row's name/position/team are returned. -/
def detailFromRows (rows : List Row) : DetailResult :=
  match detailSort rows with
  | [] => .notFound
  | first :: rest =>
    .ok { playerDetails := first :: rest
          summary := summarizePlayer (first :: rest)
          playerName := first.player_name
          position := first.position
          team := first.team }

def detailEndpoint (playerName : Option String)
    (fetch : Except Unit (List Row)) : DetailResult :=
  if playerName.getD "" = "" then .validationError
  else
    match fetch with
    | .error _ => .serverError
    | .ok rows => detailFromRows rows

theorem foldl_max_mem (l : List ℚ) : ∀ a : ℚ, l.foldl max a ∈ a :: l := by
  induction l with
  | nil => intro a; simp
  | cons b l ih =>
    intro a
    rw [List.foldl_cons]
    rcases List.mem_cons.mp (ih (max a b)) with h | h
    · rcases max_choice a b with hm | hm
      · rw [hm] at h
        rw [hm, h]
        exact List.mem_cons_self a (b :: l)
      · rw [hm] at h
        rw [hm, h]
        exact List.mem_cons_of_mem a (List.mem_cons_self b l)
    · exact List.mem_cons_of_mem a (List.mem_cons_of_mem b h)

theorem le_foldl_max_init (l : List ℚ) : ∀ a : ℚ, a ≤ l.foldl max a := by
  induction l with
  | nil => intro a; simp
  | cons b l ih =>
    intro a
    rw [List.foldl_cons]
    exact le_trans (le_max_left a b) (ih (max a b))

theorem le_foldl_max_mem (l : List ℚ) :
    ∀ (a x : ℚ), x ∈ l → x ≤ l.foldl max a := by
  induction l with
  | nil => intro a x hx; simp at hx
  | cons b l ih =>
    intro a x hx
    rw [List.foldl_cons]
    rcases List.mem_cons.mp hx with h | h
    · rw [h]
      exact le_trans (le_max_right a b) (le_foldl_max_init l (max a b))
    · exact ih (max a b) x h

theorem jsMaxList_mem (xs : List ℚ) (h : xs ≠ []) : jsMaxList xs ∈ xs := by
  cases xs with
  | nil => exact absurd rfl h
  | cons x rest => exact foldl_max_mem rest x

theorem le_jsMaxList (xs : List ℚ) (x : ℚ) (hx : x ∈ xs) :
    x ≤ jsMaxList xs := by
  cases xs with
  | nil => simp at hx
  | cons y rest =>
    rcases List.mem_cons.mp hx with h | h
    · rw [h]
      exact le_foldl_max_init rest y
    · exact le_foldl_max_mem rest y x h

/-- C4.  For a non-empty per-player series, the summary block computes:
totals as null-as-0 sums, averages as the sums divided by the row count,
maxima as attained least upper bounds of the null-as-0 values, and the
current values as the null-as-0 fields of the LAST row; in particular for
a 3-week series the current started value is the third week's
`percent_started`. -/
theorem summarizePlayer_spec (l : List Row) (h : l ≠ []) :
    (summarizePlayer l).totalAdds = (l.map adds0).sum
    ∧ (summarizePlayer l).totalDrops = (l.map drops0).sum
    ∧ (summarizePlayer l).avgRosteredChange
        = (l.map prc0).sum / (l.length : ℚ)
    ∧ (summarizePlayer l).avgStartedChange
        = (l.map psc0).sum / (l.length : ℚ)
    ∧ ((summarizePlayer l).maxRostered ∈ l.map pr0
        ∧ ∀ x ∈ l.map pr0, x ≤ (summarizePlayer l).maxRostered)
    ∧ ((summarizePlayer l).maxStarted ∈ l.map pst0
        ∧ ∀ x ∈ l.map pst0, x ≤ (summarizePlayer l).maxStarted)
    ∧ (summarizePlayer l).currentRostered = pr0 (l.getLast h)
    ∧ (summarizePlayer l).currentStarted = pst0 (l.getLast h)
    ∧ ∀ r1 r2 r3 : Row, (summarizePlayer [r1, r2, r3]).currentStarted
        = (r3.percent_started).getD 0 := by
  have hmap : l.map pr0 ≠ [] := by
    intro hc
    exact h (List.map_eq_nil_iff.mp hc)
  have hmap2 : l.map pst0 ≠ [] := by
    intro hc
    exact h (List.map_eq_nil_iff.mp hc)
  have hlast : l.getLast? = some (l.getLast h) := List.getLast?_eq_getLast l h
  refine ⟨?_, ?_, ?_, ?_, ⟨jsMaxList_mem _ hmap, fun x hx => le_jsMaxList _ x hx⟩,
    ⟨jsMaxList_mem _ hmap2, fun x hx => le_jsMaxList _ x hx⟩, ?_, ?_, ?_⟩
  · show l.foldl (fun s r => s + adds0 r) 0 = _
    rw [foldl_add_map_sum adds0 l 0, zero_add]
  · show l.foldl (fun s r => s + drops0 r) 0 = _
    rw [foldl_add_map_sum drops0 l 0, zero_add]
  · show (l.foldl (fun s r => s + prc0 r) 0) / (l.length : ℚ) = _
    rw [foldl_add_map_sum prc0 l 0, zero_add]
  · show (l.foldl (fun s r => s + psc0 r) 0) / (l.length : ℚ) = _
    rw [foldl_add_map_sum psc0 l 0, zero_add]
  · show lastValue Row.percent_rostered l = _
    unfold lastValue
    rw [hlast]
    rfl
  · show lastValue Row.percent_started l = _
    unfold lastValue
    rw [hlast]
    rfl
  · intro r1 r2 r3
    show lastValue Row.percent_started [r1, r2, r3] = _
    unfold lastValue
    simp

theorem summarizePlayer_witness :
    (summarizePlayer [mkRow "a" 1, mkRow "b" 2]).totalAdds
      = ([mkRow "a" 1, mkRow "b" 2].map adds0).sum :=
  (summarizePlayer_spec [mkRow "a" 1, mkRow "b" 2] (by decide)).1

/-- The handler returns the 400 response for a PRESENT but empty
`playerName` parameter too (`if (!playerName)` is truthy on the empty
string), so `ValidationError exactly when the parameter is missing` fails
at `playerName = some ""`. -/
theorem detail_error_counterexample :
    detailEndpoint (some "") (Except.ok []) = DetailResult.validationError
    ∧ some "" ≠ (none : Option String) :=
  ⟨rfl, by decide⟩

theorem detailEndpoint_some_ok (s : String) (rows : List Row)
    (hs : s ≠ "") :
    detailEndpoint (some s) (Except.ok rows) = detailFromRows rows := by
  unfold detailEndpoint
  rw [if_neg (by rw [Option.getD_some]; exact hs)]

theorem detailEndpoint_some_error (s : String) (hs : s ≠ "") :
    detailEndpoint (some s) (Except.error ()) = .serverError := by
  unfold detailEndpoint
  rw [if_neg (by rw [Option.getD_some]; exact hs)]

theorem detailFromRows_of_nil (rows : List Row)
    (hd : detailSort rows = []) : detailFromRows rows = .notFound := by
  unfold detailFromRows
  rw [hd]

theorem detailFromRows_of_cons (rows : List Row) (first : Row)
    (rest : List Row) (hd : detailSort rows = first :: rest) :
    detailFromRows rows
      = .ok { playerDetails := first :: rest
              summary := summarizePlayer (first :: rest)
              playerName := first.player_name
              position := first.position
              team := first.team } := by
  unfold detailFromRows
  rw [hd]

theorem detailSort_eq_nil_iff (rows : List Row) :
    detailSort rows = [] ↔ rows = [] := by
  constructor
  · intro hc
    have := (List.perm_insertionSort detailLe rows).length_eq
    rw [show List.insertionSort detailLe rows = detailSort rows from rfl,
      hc] at this
    exact List.length_eq_zero.mp this.symm
  · intro hc
    rw [hc]
    rfl

theorem detailEndpoint_ne_validation (s : String) (hs : s ≠ "")
    (fetch : Except Unit (List Row)) :
    detailEndpoint (some s) fetch ≠ .validationError := by
  cases fetch with
  | error e =>
    cases e
    rw [detailEndpoint_some_error s hs]
    decide
  | ok rows =>
    rw [detailEndpoint_some_ok s rows hs]
    rcases hd : detailSort rows with _ | ⟨first, rest⟩
    · rw [detailFromRows_of_nil rows hd]
      decide
    · rw [detailFromRows_of_cons rows first rest hd]
      exact fun hc => DetailResult.noConfusion hc

/-- C7 (amended).  The detail endpoint returns ValidationError (400)
exactly when `playerName` is missing OR empty; for a present non-empty
name it returns the 500 error exactly on store failure, the NotFound
(404) — never an empty-array success — exactly when the query matches
zero rows, and any 200 body carries a non-empty series; the three error
kinds are pairwise distinct. -/
theorem detail_error_spec (pn : Option String)
    (fetch : Except Unit (List Row)) :
    (detailEndpoint pn fetch = .validationError
      ↔ (pn = none ∨ pn = some ""))
    ∧ (∀ s, pn = some s → s ≠ "" →
        (detailEndpoint pn fetch = .serverError ↔ fetch = .error ())
        ∧ (detailEndpoint pn fetch = .notFound ↔ fetch = .ok [])
        ∧ (∀ body, detailEndpoint pn fetch = .ok body →
            body.playerDetails ≠ []))
    ∧ DetailResult.validationError ≠ DetailResult.notFound
    ∧ DetailResult.validationError ≠ DetailResult.serverError
    ∧ DetailResult.notFound ≠ DetailResult.serverError := by
  have hcase : ∀ (s : String) (hs : s ≠ ""),
      (detailEndpoint (some s) fetch = .serverError ↔ fetch = .error ())
      ∧ (detailEndpoint (some s) fetch = .notFound ↔ fetch = .ok [])
      ∧ (∀ body, detailEndpoint (some s) fetch = .ok body →
          body.playerDetails ≠ []) := by
    intro s hs
    cases fetch with
    | error e =>
      cases e
      rw [detailEndpoint_some_error s hs]
      refine ⟨⟨fun _ => rfl, fun _ => rfl⟩, ?_, ?_⟩
      · exact ⟨fun hc => absurd hc (by decide),
          fun hc => absurd hc (fun hcc => Except.noConfusion hcc)⟩
      · intro body hc
        exact absurd hc (fun hcc => DetailResult.noConfusion hcc)
    | ok rows =>
      rw [detailEndpoint_some_ok s rows hs]
      rcases hd : detailSort rows with _ | ⟨first, rest⟩
      · have hrows : rows = [] := (detailSort_eq_nil_iff rows).mp hd
        rw [detailFromRows_of_nil rows hd]
        refine ⟨?_, ?_, ?_⟩
        · exact ⟨fun hc => absurd hc (by decide),
            fun hc => absurd hc (fun hcc => Except.noConfusion hcc)⟩
        · exact ⟨fun _ => by rw [hrows], fun _ => rfl⟩
        · intro body hc
          exact absurd hc (fun hcc => DetailResult.noConfusion hcc)
      · rw [detailFromRows_of_cons rows first rest hd]
        refine ⟨?_, ?_, ?_⟩
        · exact ⟨fun hc => absurd hc (fun hcc => DetailResult.noConfusion hcc),
            fun hc => absurd hc (fun hcc => Except.noConfusion hcc)⟩
        · constructor
          · intro hc
            exact absurd hc (fun hcc => DetailResult.noConfusion hcc)
          · intro hc
            have hrows : rows = [] := by
              injection hc
            rw [hrows, (detailSort_eq_nil_iff ([] : List Row)).mpr rfl] at hd
            exact List.noConfusion hd
        · intro body hc
          injection hc with hb
          rw [← hb]
          exact List.cons_ne_nil first rest
  refine ⟨?_, ?_, by decide, by decide, by decide⟩
  · cases pn with
    | none =>
      constructor
      · intro _
        exact Or.inl rfl
      · intro _
        rfl
    | some s =>
      by_cases hs : s = ""
      · subst hs
        constructor
        · intro _
          exact Or.inr rfl
        · intro _
          rfl
      · constructor
        · intro hc
          exact absurd hc (detailEndpoint_ne_validation s hs fetch)
        · intro hc
          exfalso
          rcases hc with hc | hc
          · exact Option.noConfusion hc
          · have : s = "" := by injection hc
            exact hs this
  · intro s hpn hs
    subst hpn
    exact hcase s hs

theorem detail_error_witness :
    detailEndpoint (some "x") (Except.ok []) = DetailResult.notFound :=
  (((detail_error_spec (some "x") (Except.ok [])).2.1 "x" rfl
    (by decide)).2.1).mpr rfl

/-- C8.  On success the response's representative `position` and `team`
(and `playerName`) come from the FIRST row of the ascending
(semana, timestamp) series, while the summary's current values come from
the LAST row; the returned series is the sorted permutation of the
fetched rows. -/
theorem detail_success_spec (s : String) (rows : List Row) (first : Row)
    (rest : List Row) (hs : s ≠ "") (hd : detailSort rows = first :: rest) :
    detailEndpoint (some s) (Except.ok rows)
      = .ok { playerDetails := first :: rest
              summary := summarizePlayer (first :: rest)
              playerName := first.player_name
              position := first.position
              team := first.team }
    ∧ (summarizePlayer (first :: rest)).currentRostered
        = pr0 ((first :: rest).getLast (List.cons_ne_nil first rest))
    ∧ (summarizePlayer (first :: rest)).currentStarted
        = pst0 ((first :: rest).getLast (List.cons_ne_nil first rest))
    ∧ List.Pairwise detailLe (first :: rest)
    ∧ List.Perm (first :: rest) rows := by
  refine ⟨?_, ?_, ?_, ?_, ?_⟩
  · rw [detailEndpoint_some_ok s rows hs]
    exact detailFromRows_of_cons rows first rest hd
  · show lastValue Row.percent_rostered (first :: rest) = _
    unfold lastValue
    rw [List.getLast?_eq_getLast (first :: rest) (List.cons_ne_nil first rest)]
    rfl
  · show lastValue Row.percent_started (first :: rest) = _
    unfold lastValue
    rw [List.getLast?_eq_getLast (first :: rest) (List.cons_ne_nil first rest)]
    rfl
  · rw [← hd]
    exact List.sorted_insertionSort detailLe rows
  · rw [← hd]
    exact List.perm_insertionSort detailLe rows

/-- Week-1 observation of player `a`. -/
def rowW1 : Row := { mkRow "a" 1 with semana := 1, timestamp := 0 }

/-- Week-2 observation of player `a`. -/
def rowW2 : Row := { mkRow "a" 2 with semana := 2, timestamp := 0 }

theorem detail_success_witness :
    List.Pairwise detailLe [rowW1, rowW2]
    ∧ List.Perm [rowW1, rowW2] [rowW2, rowW1] :=
  ⟨(detail_success_spec "x" [rowW2, rowW1] rowW1 [rowW2]
      (by decide) (by decide)).2.2.2.1,
    (detail_success_spec "x" [rowW2, rowW1] rowW1 [rowW2]
      (by decide) (by decide)).2.2.2.2⟩
